import Mathlib

/-!
Shallow embedding of the graph-store logic of the two Streamlit apps
`app_graph_visual_diagram_builder.py` (variant A, auto-generated node ids,
edge directions, self-loop rejection) and `app_graph_viz.py` (variant B,
caller-supplied ids with upsert, no directions).  Python dicts are embedded
as insertion-ordered association lists; a raised `KeyError` is embedded as
`Option.none`; the `json` module boundary is embedded as a `Json` value type.
-/

/-- Node record, as stored in `st.session_state.nodes`:
`{"id": "N1", "label": "Start"}`. -/
structure Node where
  id : String
  label : String
deriving Repr, DecidableEq

/-- Edge record of variant A, as stored in `st.session_state.edges`:
`{"source": "N1", "target": "N2", "direction": "directed", "label": ""}`.
Variant B edges carry no `direction`; they are embedded with this same record
and the `direction` field simply unread by variant B's functions. -/
structure Edge where
  source : String
  target : String
  direction : String
  label : String
deriving Repr, DecidableEq

/-- The session store: the two ordered sequences held in `st.session_state`. -/
structure GraphState where
  nodes : List Node
  edges : List Edge
deriving Repr, DecidableEq

/-- Initial session state: both sequences empty (lines 18-24 of variant A). -/
def emptyState : GraphState := ⟨[], []⟩

/-- Variant A, lines 30-31: `return f"N{len(st.session_state.nodes) + 1}"`. -/
def next_node_id (s : GraphState) : String :=
  "N" ++ Nat.repr (s.nodes.length + 1)

/-- Lines 34-35 (both variants): `[n["id"] for n in st.session_state.nodes]`. -/
def get_node_ids (s : GraphState) : List String :=
  s.nodes.map Node.id

/-- Variant A, line 87: the Add-node handler appends
`{"id": next_node_id(), "label": ""}`. -/
def add_node (s : GraphState) : GraphState :=
  { s with nodes := s.nodes ++ [⟨next_node_id s, ""⟩] }

/-- Variant A, lines 104-106: the per-node label write-back
`node["label"] = new_labels[node["id"]]`, for one node id. -/
def update_node_label (s : GraphState) (i l : String) : GraphState :=
  { s with nodes := s.nodes.map fun n => if n.id == i then { n with label := l } else n }

/-- Variant A lines 115-121 / variant B lines 79-87: the Delete-node handler
filters out the node with the selected id and every edge whose source or
target equals it. -/
def delete_node (s : GraphState) (delId : String) : GraphState :=
  { nodes := s.nodes.filter fun n => n.id != delId,
    edges := s.edges.filter fun e => e.source != delId && e.target != delId }

/-- Variant A, lines 140-151: the Add-edge handler.  When `src == dst` it
shows `st.warning("Source and target must be different.")` and leaves the
store alone; the returned Bool records whether that warning was signaled. -/
def add_edge (s : GraphState) (src dst direction label : String) : GraphState × Bool :=
  if src == dst then (s, true)
  else ({ s with edges := s.edges ++ [⟨src, dst, direction, label⟩] }, false)

/-- Lines 154-155 (variant A) / 110-111 (variant B): `st.session_state.edges = []`. -/
def clear_edges (s : GraphState) : GraphState :=
  { s with edges := [] }

/-- Variant A, line 58: graphviz renders each node with
`label=n["label"] or n["id"]` — the empty string is falsy in Python. -/
def graphviz_node_label (n : Node) : String :=
  if n.label == "" then n.id else n.label

/-!
Python dicts preserve insertion order; the adjacency dict is embedded as an
association list in key-insertion order.
-/

/-- Adjacency dict: keys in insertion order, each with its neighbor list. -/
abbrev AdjList := List (String × List String)

/-- Key sequence of the dict, in insertion order. -/
def dictKeys (d : AdjList) : List String :=
  d.map Prod.fst

/-- One step of the comprehension `{n["id"]: [] for n in nodes}`: assigning
`[]` to a key already present leaves the dict unchanged (same position, same
value), otherwise the key is appended with value `[]`. -/
def dictInsertEmpty (d : AdjList) (k : String) : AdjList :=
  if (dictKeys d).contains k then d else d ++ [(k, [])]

/-- Variant A line 39 / variant B line 25: `{n["id"]: [] for n in nodes}`. -/
def initAdj (nodes : List Node) : AdjList :=
  nodes.foldl (fun d n => dictInsertEmpty d n.id) []

/-- Python `adj[k].append(v)`: appends `v` to the list stored at `k`;
when `k` is not a key this raises `KeyError`, embedded as `none`. -/
def dictAppendAt (d : AdjList) (k v : String) : Option AdjList :=
  match d with
  | [] => none
  | (k', vs) :: rest =>
    if k' == k then some ((k', vs ++ [v]) :: rest)
    else (dictAppendAt rest k v).map fun r => (k', vs) :: r

/-- Variant A, lines 41-47: the per-edge body of `build_adjacency_list`.
`if d in ("directed","bidirected","undirected"): adj[s].append(t)` then
`if d in ("bidirected","undirected"): adj[t].append(s)`. -/
def applyEdge (d : AdjList) (e : Edge) : Option AdjList :=
  (if e.direction == "directed" || e.direction == "bidirected" || e.direction == "undirected"
      then dictAppendAt d e.source e.target
      else some d).bind fun d1 =>
    if e.direction == "bidirected" || e.direction == "undirected"
      then dictAppendAt d1 e.target e.source
      else some d1

/-- Variant A, lines 38-48: `build_adjacency_list`.  `none` embeds the
`KeyError` raised when an edge endpoint that gets accessed is not a node id. -/
def build_adjacency_list (s : GraphState) : Option AdjList :=
  s.edges.foldlM applyEdge (initAdj s.nodes)

namespace Viz

/-- Variant B, lines 24-28: `build_adjacency_list`, which reads no direction:
`adj[e["source"]].append(e["target"])` for every edge. -/
def build_adjacency_list (s : GraphState) : Option AdjList :=
  s.edges.foldlM (fun d e => dictAppendAt d e.source e.target) (initAdj s.nodes)

/-- Variant B, lines 66-72: label update of `existing[0]`, the first node in
the list whose id matches — only that node is written. -/
def updateFirstLabel : List Node → String → String → List Node
  | [], _, _ => []
  | n :: rest, i, l =>
    if n.id == i then { n with label := l } :: rest
    else n :: updateFirstLabel rest i l

/-- Python `node_id.strip() == ""`: the stripped string is empty exactly
when every character is whitespace. -/
def isBlank (s : String) : Bool := s.data.all Char.isWhitespace

/-- Variant B, lines 61-72: the Add/Update-node handler.  Blank (whitespace)
id warns and leaves the store; otherwise the first node with that id gets
label `node_label or node_id` (empty label is falsy, so the id), and when no
node has the id a fresh node is appended with that same label. -/
def addUpdateNode (s : GraphState) (nodeId nodeLabel : String) : GraphState × Option String :=
  if isBlank nodeId then (s, some "Node ID cannot be empty.")
  else
    let newLabel := if nodeLabel == "" then nodeId else nodeLabel
    if (s.nodes.filter fun n => n.id == nodeId).isEmpty then
      ({ s with nodes := s.nodes ++ [⟨nodeId, newLabel⟩] }, none)
    else
      ({ s with nodes := updateFirstLabel s.nodes nodeId newLabel }, none)

end Viz

/-!
JSON boundary.  `json.dumps`/`json.load` are the Python standard library, not
code of this repository; the repository's own logic is the construction of
the `graph_data` dict before `dumps` (lines 160-165) and the field reads
after `load` (lines 178-180).  Both are embedded over this value type, with
the loader's outcome given to the handler as a `LoadResult`.
-/

/-- JSON value, as produced by `json.load` (numbers kept as integers: no
numeric literal ever arises from this program's own output). -/
inductive Json where
  | null : Json
  | bool : Bool → Json
  | num : Int → Json
  | str : String → Json
  | arr : List Json → Json
  | obj : List (String × Json) → Json
deriving Repr

/-- Node record as placed in `graph_data["nodes"]` (line 161: the stored
dicts are serialized as-is, keys in their insertion order `id`, `label`). -/
def nodeToJson (n : Node) : Json :=
  .obj [("id", .str n.id), ("label", .str n.label)]

/-- Edge record as placed in `graph_data["edges"]` (line 162; key insertion
order `source`, `target`, `direction`, `label` from lines 144-151). -/
def edgeToJson (e : Edge) : Json :=
  .obj [("source", .str e.source), ("target", .str e.target),
        ("direction", .str e.direction), ("label", .str e.label)]

/-- The adjacency dict as placed in `graph_data["adjacency_list"]` (line 163). -/
def adjToJson (d : AdjList) : Json :=
  .obj (d.map fun kv => (kv.1, Json.arr (kv.2.map Json.str)))

/-- Variant A, lines 160-165: the `graph_data` document handed to
`json.dumps`.  Building it calls `build_adjacency_list()`, so it inherits
that call's possible `KeyError` (`none`). -/
def serializeGraph (s : GraphState) : Option Json :=
  (build_adjacency_list s).map fun adj =>
    .obj [("nodes", .arr (s.nodes.map nodeToJson)),
          ("edges", .arr (s.edges.map edgeToJson)),
          ("adjacency_list", adjToJson adj)]

/-- Outcome of `json.load(uploaded)`: a parsed value, or the syntax error it
raised (carrying the exception message). -/
inductive LoadResult where
  | ok : Json → LoadResult
  | syntaxError : String → LoadResult

/-- First-match key lookup in a parsed object; `json.load` never produces
duplicate keys in a Python dict, so first-match agrees with dict lookup. -/
def jsonLookup (kvs : List (String × Json)) (k : String) : Option Json :=
  match kvs with
  | [] => none
  | (k', v) :: rest => if k' == k then some v else jsonLookup rest k

/-- Lines 175-183 (variant A) and 132-140 (variant B): the body of the
upload `try` block after `json.load`, as a function of the load outcome:
`data.get("nodes", [])` / `data.get("edges", [])` on a dict; on a non-dict
top level `.get` raises `AttributeError`, caught by the same `except` (the
runtime message is abbreviated here); on a load failure the `except` arm
reports the message.  Result: the raw values stored into the session plus
the error message, if one was shown (`none` means `st.success`). -/
def parseGraphDocument (r : LoadResult) : Except String (Json × Json) :=
  match r with
  | .syntaxError m => .error ("Could not parse JSON: " ++ m)
  | .ok (.obj kvs) =>
    .ok ((jsonLookup kvs "nodes").getD (.arr []), (jsonLookup kvs "edges").getD (.arr []))
  | .ok _ => .error "Could not parse JSON: AttributeError"

/-- The session store as the upload handler sees it: the two raw values in
`st.session_state` (after an import they are arbitrary parsed JSON). -/
structure RawStore where
  nodes : Json
  edges : Json

/-- The full upload handler (lines 176-183): on any caught exception the
store is untouched and `st.error` shows the message; on success both
sequences are replaced and `st.success` is shown (`none`). -/
def jsonUploadHandler (s : RawStore) (r : LoadResult) : RawStore × Option String :=
  match parseGraphDocument r with
  | .error m => (s, some m)
  | .ok (nv, ev) => ({ nodes := nv, edges := ev }, none)

/-- Readback of one node record, the way the program consumes it
(`n["id"]`, `n["label"]`): recovers the `Node` a serialized record encodes. -/
def decodeNode : Json → Option Node
  | .obj kvs =>
    match jsonLookup kvs "id", jsonLookup kvs "label" with
    | some (.str i), some (.str l) => some ⟨i, l⟩
    | _, _ => none
  | _ => none

/-- Readback of the `nodes` array. -/
def decodeNodes : Json → Option (List Node)
  | .arr l => l.mapM decodeNode
  | _ => none

/-- Readback of one edge record (`e["source"]`, `e["target"]`,
`e["direction"]`, `e["label"]`). -/
def decodeEdge : Json → Option Edge
  | .obj kvs =>
    match jsonLookup kvs "source", jsonLookup kvs "target",
        jsonLookup kvs "direction", jsonLookup kvs "label" with
    | some (.str a), some (.str b), some (.str d), some (.str l) => some ⟨a, b, d, l⟩
    | _, _, _, _ => none
  | _ => none

/-- Readback of the `edges` array. -/
def decodeEdges : Json → Option (List Edge)
  | .arr l => l.mapM decodeEdge
  | _ => none

/-!
Reachability.  `ReachableA` covers only the interactive editing handlers of
the variant-A page: the empty initial store transformed by the add/update/
delete/add-edge/clear handlers, with the Add-edge handler constrained the
way the page constrains it (source and target picked from the node-id
selectboxes, direction from the fixed three-entry selectbox).  It
deliberately excludes the JSON upload path.  `ReachableOps` adds that path
(`replace_all`, the store-level view of the upload handler), giving the full
set of public store operations; since `replace_all` validates nothing, it
can produce stores with dangling edge references or duplicate ids.
-/

/-- States producible by the variant-A interactive editing handlers alone
(the JSON upload handler is excluded; see `ReachableOps`). -/
inductive ReachableA : GraphState → Prop
  | empty : ReachableA emptyState
  | addNode {s} : ReachableA s → ReachableA (add_node s)
  | updateLabel {s} (i l : String) : ReachableA s → ReachableA (update_node_label s i l)
  | deleteNode {s} (i : String) : ReachableA s → ReachableA (delete_node s i)
  | addEdge {s} (src dst d l : String) :
      src ∈ get_node_ids s → dst ∈ get_node_ids s →
      d ∈ (["directed", "bidirected", "undirected"] : List String) →
      ReachableA s → ReachableA (add_edge s src dst d l).1
  | clearEdges {s} : ReachableA s → ReachableA (clear_edges s)

/-- The store-level effect of a successful JSON upload (lines 179-180:
`st.session_state.nodes = ...; st.session_state.edges = ...`), the
operation the spec calls `replaceAll(nodes, edges)`: both sequences are
bulk-replaced with no validation, the previous state discarded. -/
def replace_all (_s : GraphState) (ns : List Node) (es : List Edge) : GraphState :=
  ⟨ns, es⟩

/-- States producible through the full public operation set: the
interactive editing handlers plus `replace_all` (the JSON import path). -/
inductive ReachableOps : GraphState → Prop
  | empty : ReachableOps emptyState
  | addNode {s} : ReachableOps s → ReachableOps (add_node s)
  | updateLabel {s} (i l : String) : ReachableOps s → ReachableOps (update_node_label s i l)
  | deleteNode {s} (i : String) : ReachableOps s → ReachableOps (delete_node s i)
  | addEdge {s} (src dst d l : String) :
      src ∈ get_node_ids s → dst ∈ get_node_ids s →
      d ∈ (["directed", "bidirected", "undirected"] : List String) →
      ReachableOps s → ReachableOps (add_edge s src dst d l).1
  | clearEdges {s} : ReachableOps s → ReachableOps (clear_edges s)
  | replaceAll {s} (ns : List Node) (es : List Edge) :
      ReachableOps s → ReachableOps (replace_all s ns es)

/-- An add-or-delete step of variant A, for stating the id-uniqueness claim
over operation sequences. -/
inductive NodeOp where
  | addN : NodeOp
  | delN : String → NodeOp

/-- Run one `NodeOp` against the store. -/
def applyNodeOp (s : GraphState) : NodeOp → GraphState
  | .addN => add_node s
  | .delN i => delete_node s i

/-- Run a sequence of add/delete operations from the empty store. -/
def runOps (ops : List NodeOp) : GraphState :=
  ops.foldl applyNodeOp emptyState

/-!
Injectivity of the decimal numeral used by `next_node_id`: needed to settle
which `addNode`/`deleteNode` sequences keep ids distinct.
-/

/-- Decimal digit characters of a natural number, most significant first;
a structural-recursion rendering of what `Nat.toDigitsCore` computes. -/
def decDigits (n : Nat) : List Char :=
  if _h : n < 10 then [Nat.digitChar n]
  else decDigits (n / 10) ++ [Nat.digitChar (n % 10)]
decreasing_by exact Nat.div_lt_self (by omega) (by omega)

theorem toDigitsCore_eq_decDigits :
    ∀ (fuel n : Nat) (ds : List Char), n < fuel →
      Nat.toDigitsCore 10 fuel n ds = decDigits n ++ ds := by
  intro fuel
  induction fuel with
  | zero => omega
  | succ f ih =>
    intro n ds hn
    by_cases hdiv : n / 10 = 0
    · have hlt : n < 10 := (Nat.div_eq_zero_iff (by omega)).mp hdiv
      rw [decDigits]
      simp [Nat.toDigitsCore, hdiv, Nat.mod_eq_of_lt hlt, hlt]
    · have h10 : ¬ n < 10 := fun hc => hdiv (Nat.div_eq_of_lt hc)
      have hpos : 0 < n := by omega
      have hstep : n / 10 < n := Nat.div_lt_self hpos (by omega)
      rw [decDigits]
      simp only [h10, dite_false]
      rw [Nat.toDigitsCore]
      simp only [hdiv, if_false]
      rw [ih (n / 10) _ (by omega)]
      simp

theorem natRepr_eq_decDigits (n : Nat) : Nat.repr n = (decDigits n).asString := by
  rw [Nat.repr, Nat.toDigits, toDigitsCore_eq_decDigits (n + 1) n [] (Nat.lt_succ_self n)]
  simp

/-- Numeric value of a digit character. -/
def chVal (c : Char) : Nat := c.toNat - 48

theorem chVal_digitChar {d : Nat} (h : d < 10) : chVal (Nat.digitChar d) = d := by
  interval_cases d <;> rfl

theorem foldl_decDigits (n : Nat) :
    ∀ a : Nat, (decDigits n).foldl (fun a c => 10 * a + chVal c) a
      = a * 10 ^ (decDigits n).length + n := by
  induction n using Nat.strong_induction_on with
  | _ n ih =>
    intro a
    by_cases h : n < 10
    · rw [decDigits]
      simp [h, List.foldl, chVal_digitChar h]
      omega
    · have hpos : 0 < n := by omega
      have hstep : n / 10 < n := Nat.div_lt_self hpos (by omega)
      rw [decDigits]
      simp only [h, dite_false]
      rw [List.foldl_append, ih (n / 10) hstep a]
      simp [List.foldl, chVal_digitChar (Nat.mod_lt n (by omega) : n % 10 < 10)]
      rw [pow_succ]
      have := Nat.div_add_mod n 10
      ring_nf
      omega

theorem decDigits_injective : Function.Injective decDigits := by
  intro n m h
  have h1 := foldl_decDigits n 0
  have h2 := foldl_decDigits m 0
  rw [h] at h1
  simp at h1 h2
  omega

theorem natRepr_injective : Function.Injective Nat.repr := by
  intro n m h
  rw [natRepr_eq_decDigits, natRepr_eq_decDigits] at h
  have hdata : decDigits n = decDigits m := congrArg String.data h
  exact decDigits_injective hdata

theorem nId_injective : Function.Injective (fun i : Nat => "N" ++ Nat.repr (i + 1)) := by
  intro a b h
  simp only at h
  have hdata := congrArg String.data h
  simp only [String.data_append] at hdata
  have : (Nat.repr (a + 1)).data = (Nat.repr (b + 1)).data :=
    List.append_cancel_left hdata
  have : Nat.repr (a + 1) = Nat.repr (b + 1) := by
    cases hra : Nat.repr (a + 1)
    cases hrb : Nat.repr (b + 1)
    simp_all
  have := natRepr_injective this
  omega

/-!
Id sequences under add/delete operations.
-/

theorem runOps_append (ops : List NodeOp) (op : NodeOp) :
    runOps (ops ++ [op]) = applyNodeOp (runOps ops) op := by
  simp [runOps, List.foldl_append]

theorem get_node_ids_add_node (s : GraphState) :
    get_node_ids (add_node s) = get_node_ids s ++ [next_node_id s] := by
  simp [get_node_ids, add_node]

theorem ids_of_pure_adds (n : Nat) :
    get_node_ids (runOps (List.replicate n .addN))
      = (List.range n).map (fun i => "N" ++ Nat.repr (i + 1)) := by
  induction n with
  | zero => rfl
  | succ n ih =>
    rw [List.replicate_succ', runOps_append]
    show get_node_ids (add_node (runOps (List.replicate n .addN))) = _
    rw [get_node_ids_add_node, ih, next_node_id]
    have hlen : (runOps (List.replicate n .addN)).nodes.length = n := by
      have := congrArg List.length ih
      simpa [get_node_ids] using this
    rw [hlen, List.range_succ]
    simp

theorem nodup_ids_of_pure_adds (n : Nat) :
    (get_node_ids (runOps (List.replicate n .addN))).Nodup := by
  rw [ids_of_pure_adds]
  exact (List.nodup_range n).map nId_injective

theorem delete_node_nodup {s : GraphState} (i : String)
    (h : (get_node_ids s).Nodup) : (get_node_ids (delete_node s i)).Nodup := by
  have hsub : (get_node_ids (delete_node s i)).Sublist (get_node_ids s) :=
    (List.filter_sublist s.nodes).map Node.id
  exact h.sublist hsub

/-!
Key structure of the adjacency dict.
-/

theorem mem_dictKeys_dictInsertEmpty {d : AdjList} {k a : String} :
    a ∈ dictKeys (dictInsertEmpty d k) ↔ a ∈ dictKeys d ∨ a = k := by
  unfold dictInsertEmpty
  by_cases hc : (dictKeys d).contains k = true
  · have hk : k ∈ dictKeys d := by simpa using hc
    rw [if_pos hc]
    constructor
    · exact Or.inl
    · rintro (h | rfl)
      · exact h
      · exact hk
  · rw [if_neg hc]
    simp [dictKeys]

theorem mem_dictKeys_foldl_insert :
    ∀ (ns : List Node) (d : AdjList) (a : String),
      a ∈ dictKeys (ns.foldl (fun d n => dictInsertEmpty d n.id) d)
        ↔ a ∈ dictKeys d ∨ a ∈ ns.map Node.id := by
  intro ns
  induction ns with
  | nil => simp
  | cons n ns ih =>
    intro d a
    rw [List.foldl_cons, ih, mem_dictKeys_dictInsertEmpty]
    simp
    tauto

theorem mem_dictKeys_initAdj {ns : List Node} {a : String} :
    a ∈ dictKeys (initAdj ns) ↔ a ∈ ns.map Node.id := by
  rw [initAdj, mem_dictKeys_foldl_insert]
  simp [dictKeys]

theorem dictKeys_foldl_insert_of_nodup :
    ∀ (ns : List Node) (d : AdjList),
      (∀ i ∈ ns.map Node.id, i ∉ dictKeys d) → (ns.map Node.id).Nodup →
      dictKeys (ns.foldl (fun d n => dictInsertEmpty d n.id) d)
        = dictKeys d ++ ns.map Node.id := by
  intro ns
  induction ns with
  | nil => simp
  | cons n ns ih =>
    intro d hdisj hnodup
    rw [List.map_cons, List.nodup_cons] at hnodup
    rw [List.foldl_cons]
    have hnotin : n.id ∉ dictKeys d := hdisj n.id (by simp)
    have hins : dictInsertEmpty d n.id = d ++ [(n.id, [])] := by
      unfold dictInsertEmpty
      rw [if_neg (by simpa using hnotin)]
    have hdisj' : ∀ i ∈ List.map Node.id ns, i ∉ dictKeys (d ++ [(n.id, [])]) := by
      intro i hi hmem
      have hmem' : i ∈ dictKeys d ∨ i = n.id := by
        simpa [dictKeys] using hmem
      rcases hmem' with h | rfl
      · exact hdisj i (by simp only [List.map_cons, List.mem_cons]; exact Or.inr hi) h
      · exact hnodup.1 hi
    rw [hins, ih (d ++ [(n.id, [])]) hdisj' hnodup.2]
    simp [dictKeys]

theorem dictKeys_initAdj_of_nodup {ns : List Node}
    (h : (ns.map Node.id).Nodup) : dictKeys (initAdj ns) = ns.map Node.id := by
  rw [initAdj, dictKeys_foldl_insert_of_nodup ns [] (by simp [dictKeys]) h]
  simp [dictKeys]

theorem dictAppendAt_some_of_mem :
    ∀ (d : AdjList) (k : String), k ∈ dictKeys d → ∀ v : String,
      ∃ d', dictAppendAt d k v = some d' ∧ dictKeys d' = dictKeys d := by
  intro d
  induction d with
  | nil => simp [dictKeys]
  | cons kv rest ih =>
    intro k hk v
    obtain ⟨k', vs⟩ := kv
    by_cases he : k' == k
    · exact ⟨(k', vs ++ [v]) :: rest, by simp [dictAppendAt, he], by simp [dictKeys]⟩
    · have hk' : k ∈ dictKeys rest := by
        have : k = k' ∨ k ∈ dictKeys rest := by simpa [dictKeys] using hk
        rcases this with rfl | h
        · exact absurd (by simp) he
        · exact h
      obtain ⟨r, hr, hkeys⟩ := ih k hk' v
      refine ⟨(k', vs) :: r, ?_, ?_⟩
      · simp [dictAppendAt, he, hr]
      · simp [dictKeys] at hkeys ⊢
        exact hkeys

theorem applyEdge_some_of_mem {d : AdjList} {e : Edge}
    (hs : e.source ∈ dictKeys d) (ht : e.target ∈ dictKeys d) :
    ∃ d', applyEdge d e = some d' ∧ dictKeys d' = dictKeys d := by
  unfold applyEdge
  by_cases h1 : (e.direction == "directed" || e.direction == "bidirected"
      || e.direction == "undirected") = true
  · obtain ⟨d1, hd1, hk1⟩ := dictAppendAt_some_of_mem d e.source hs e.target
    rw [if_pos h1, hd1]
    by_cases h2 : (e.direction == "bidirected" || e.direction == "undirected") = true
    · obtain ⟨d2, hd2, hk2⟩ :=
        dictAppendAt_some_of_mem d1 e.target (hk1 ▸ ht) e.source
      exact ⟨d2, by simp [h2, hd2], by rw [hk2, hk1]⟩
    · exact ⟨d1, by simp [h2], hk1⟩
  · rw [if_neg h1]
    by_cases h2 : (e.direction == "bidirected" || e.direction == "undirected") = true
    · obtain ⟨d2, hd2, hk2⟩ := dictAppendAt_some_of_mem d e.target ht e.source
      exact ⟨d2, by simp [h2, hd2], hk2⟩
    · exact ⟨d, by simp [h2], rfl⟩

theorem foldlM_applyEdge_some :
    ∀ (es : List Edge) (d : AdjList),
      (∀ e ∈ es, e.source ∈ dictKeys d ∧ e.target ∈ dictKeys d) →
      ∃ d', List.foldlM applyEdge d es = some d' ∧ dictKeys d' = dictKeys d := by
  intro es
  induction es with
  | nil => intro d _; exact ⟨d, rfl, rfl⟩
  | cons e es ih =>
    intro d hmem
    obtain ⟨d1, hd1, hk1⟩ :=
      applyEdge_some_of_mem (hmem e (by simp)).1 (hmem e (by simp)).2
    obtain ⟨d2, hd2, hk2⟩ := ih d1 (fun e' he' => by
      rw [hk1]
      exact hmem e' (by simp [he']))
    refine ⟨d2, ?_, by rw [hk2, hk1]⟩
    rw [List.foldlM_cons, hd1]
    exact hd2

theorem foldlM_vizStep_some :
    ∀ (es : List Edge) (d : AdjList),
      (∀ e ∈ es, e.source ∈ dictKeys d) →
      ∃ d', List.foldlM (fun d e => dictAppendAt d e.source e.target) d es = some d'
        ∧ dictKeys d' = dictKeys d := by
  intro es
  induction es with
  | nil => intro d _; exact ⟨d, rfl, rfl⟩
  | cons e es ih =>
    intro d hmem
    obtain ⟨d1, hd1, hk1⟩ := dictAppendAt_some_of_mem d e.source (hmem e (by simp)) e.target
    obtain ⟨d2, hd2, hk2⟩ := ih d1 (fun e' he' => by
      rw [hk1]
      exact hmem e' (by simp [he']))
    refine ⟨d2, ?_, by rw [hk2, hk1]⟩
    rw [List.foldlM_cons, hd1]
    exact hd2

/-!
Referential integrity along UI-reachable states, and the serialize/parse
round trip.
-/

theorem get_node_ids_update_node_label (s : GraphState) (i l : String) :
    get_node_ids (update_node_label s i l) = get_node_ids s := by
  simp only [get_node_ids, update_node_label, List.map_map]
  congr 1
  funext n
  by_cases h : n.id = i <;> simp [h]

theorem reachable_edges_wf {s : GraphState} (h : ReachableA s) :
    ∀ e ∈ s.edges, e.source ∈ get_node_ids s ∧ e.target ∈ get_node_ids s := by
  induction h with
  | empty => simp [emptyState]
  | @addNode s' _ ih =>
    intro e he
    have he' : e ∈ s'.edges := he
    rw [get_node_ids_add_node]
    obtain ⟨h1, h2⟩ := ih e he'
    exact ⟨List.mem_append_left _ h1, List.mem_append_left _ h2⟩
  | @updateLabel s' i l _ ih =>
    intro e he
    rw [get_node_ids_update_node_label]
    exact ih e he
  | @deleteNode s' i _ ih =>
    intro e he
    simp only [delete_node, List.mem_filter, Bool.and_eq_true, bne_iff_ne, ne_eq] at he
    obtain ⟨hmem, hsrc, htgt⟩ := he
    obtain ⟨h1, h2⟩ := ih e hmem
    constructor
    · simp only [get_node_ids, List.mem_map] at h1 ⊢
      obtain ⟨n, hn, hid⟩ := h1
      exact ⟨n, by simp [delete_node, List.mem_filter, hn, hid, hsrc], hid⟩
    · simp only [get_node_ids, List.mem_map] at h2 ⊢
      obtain ⟨n, hn, hid⟩ := h2
      exact ⟨n, by simp [delete_node, List.mem_filter, hn, hid, htgt], hid⟩
  | @addEdge s' src dst d l hsrc hdst _ _ ih =>
    by_cases hsd : (src == dst) = true
    · intro e he
      simp only [add_edge, if_pos hsd] at he ⊢
      exact ih e he
    · intro e he
      simp only [add_edge, if_neg hsd] at he ⊢
      simp only [List.mem_append, List.mem_singleton] at he
      rcases he with he | rfl
      · exact ih e he
      · exact ⟨hsrc, hdst⟩
  | @clearEdges s' _ _ =>
    intro e he
    simp [clear_edges] at he

theorem decodeNode_nodeToJson (n : Node) : decodeNode (nodeToJson n) = some n := by
  cases n
  rfl

theorem decodeEdge_edgeToJson (e : Edge) : decodeEdge (edgeToJson e) = some e := by
  cases e
  rfl

theorem decodeNodes_encode (ns : List Node) :
    decodeNodes (.arr (ns.map nodeToJson)) = some ns := by
  simp only [decodeNodes]
  induction ns with
  | nil => rfl
  | cons n ns ih =>
    rw [List.map_cons, List.mapM_cons, decodeNode_nodeToJson, ih]
    rfl

theorem decodeEdges_encode (es : List Edge) :
    decodeEdges (.arr (es.map edgeToJson)) = some es := by
  simp only [decodeEdges]
  induction es with
  | nil => rfl
  | cons e es ih =>
    rw [List.map_cons, List.mapM_cons, decodeEdge_edgeToJson, ih]
    rfl

theorem serializeGraph_of_consistent {s : GraphState}
    (hwf : ∀ e ∈ s.edges, e.source ∈ get_node_ids s ∧ e.target ∈ get_node_ids s) :
    serializeGraph s
      = some (.obj [("nodes", .arr (s.nodes.map nodeToJson)),
                    ("edges", .arr (s.edges.map edgeToJson)),
                    ("adjacency_list",
                      adjToJson ((build_adjacency_list s).getD []))]) := by
  obtain ⟨adj, hadj, _⟩ := foldlM_applyEdge_some s.edges (initAdj s.nodes) (fun e he => by
    obtain ⟨h1, h2⟩ := hwf e he
    exact ⟨mem_dictKeys_initAdj.mpr h1, mem_dictKeys_initAdj.mpr h2⟩)
  have hb : build_adjacency_list s = some adj := hadj
  rw [serializeGraph, hb]
  rfl

theorem initAdj_pair {A B : String} (la lb : String) (h : A ≠ B) :
    initAdj [⟨A, la⟩, ⟨B, lb⟩] = [(A, []), (B, [])] := by
  simp [initAdj, dictInsertEmpty, dictKeys, h, Ne.symm h]

/-!
Claim theorems.
-/

/-- C1 (counterexample): node-id uniqueness fails on the code.  After
`addNode`, `addNode`, `deleteNode "N1"`, the node count is back to 1, so the
next `addNode` allocates `"N" + (1+1) = "N2"` again and the store holds two
nodes with id `"N2"`. -/
theorem C1_counterexample_duplicate_id_after_delete :
    get_node_ids (runOps [.addN, .addN, .delN "N1", .addN]) = ["N2", "N2"]
    ∧ ¬ (get_node_ids (runOps [.addN, .addN, .delN "N1", .addN])).Nodup := by
  constructor
  · rfl
  · decide

/-- C1 (amended): node ids are pairwise distinct at every point of a
sequence of `addNode` calls alone, and `deleteNode` itself preserves
distinctness; only an `addNode` performed after a `deleteNode` can
reallocate a live id. -/
theorem C1_amended_unique_ids :
    (∀ n : Nat, (get_node_ids (runOps (List.replicate n .addN))).Nodup)
    ∧ (∀ (s : GraphState) (i : String), (get_node_ids s).Nodup →
        (get_node_ids (delete_node s i)).Nodup) :=
  ⟨nodup_ids_of_pure_adds, fun _ i h => delete_node_nodup i h⟩

/-- Witness for C1 (amended) at concrete inputs. -/
theorem C1_amended_unique_ids_witness :
    (get_node_ids (runOps (List.replicate 3 .addN))).Nodup
    ∧ (get_node_ids (delete_node ⟨[⟨"A", ""⟩, ⟨"B", ""⟩], []⟩ "A")).Nodup :=
  ⟨C1_amended_unique_ids.1 3,
   C1_amended_unique_ids.2 ⟨[⟨"A", ""⟩, ⟨"B", ""⟩], []⟩ "A" (by decide)⟩

/-- C2 (counterexample): the bulk-replace/import path accepts a document
with an edge whose source is not a node id, and on such a store
`build_adjacency_list` raises `KeyError` (embedded as `none`) instead of
returning a result. -/
theorem C2_counterexample_dangling_edge_keyerror :
    build_adjacency_list ⟨[], [⟨"A", "B", "directed", ""⟩]⟩ = none := rfl

/-- C2 (amended): `build_adjacency_list` (both variants) returns a result on
every store whose edges reference only existing node ids; on a dangling
reference it raises `KeyError` rather than degrading to a message. -/
theorem C2_amended_adjacency_total_on_consistent :
    ∀ s : GraphState,
      (∀ e ∈ s.edges, e.source ∈ get_node_ids s ∧ e.target ∈ get_node_ids s) →
      (build_adjacency_list s).isSome ∧ (Viz.build_adjacency_list s).isSome := by
  intro s h
  simp only [get_node_ids] at h
  constructor
  · obtain ⟨d, hd, -⟩ := foldlM_applyEdge_some s.edges (initAdj s.nodes) (fun e he =>
      ⟨mem_dictKeys_initAdj.mpr (h e he).1, mem_dictKeys_initAdj.mpr (h e he).2⟩)
    simp [build_adjacency_list, hd]
  · obtain ⟨d, hd, -⟩ := foldlM_vizStep_some s.edges (initAdj s.nodes) (fun e he =>
      mem_dictKeys_initAdj.mpr (h e he).1)
    simp [Viz.build_adjacency_list, hd]

/-- Witness for C2 (amended) at a concrete consistent store. -/
theorem C2_amended_adjacency_total_on_consistent_witness :
    (build_adjacency_list ⟨[⟨"A", ""⟩, ⟨"B", ""⟩], [⟨"A", "B", "directed", ""⟩]⟩).isSome
    ∧ (Viz.build_adjacency_list ⟨[⟨"A", ""⟩, ⟨"B", ""⟩], [⟨"A", "B", "directed", ""⟩]⟩).isSome :=
  C2_amended_adjacency_total_on_consistent
    ⟨[⟨"A", ""⟩, ⟨"B", ""⟩], [⟨"A", "B", "directed", ""⟩]⟩ (by decide)

/-- C3 (counterexample): when no node has the deleted id the operation is
not always a no-op: on an (import-produced) store with a dangling edge
referencing `"A"` and no node `"A"`, the delete handler still removes that
edge. -/
theorem C3_counterexample_absent_id_not_noop :
    delete_node ⟨[], [⟨"A", "B", "directed", ""⟩]⟩ "A"
      ≠ ⟨[], [⟨"A", "B", "directed", ""⟩]⟩ := by
  decide

/-- C3 (amended): `deleteNode id` removes the node with that id and every
edge whose source or target equals id (no dangling edge referencing id
survives, all other nodes and edges survive); it is a no-op exactly when no
node has the id and additionally no edge references it. -/
theorem C3_amended_delete_node :
    ∀ (s : GraphState) (i : String),
      (∀ n ∈ (delete_node s i).nodes, n.id ≠ i)
      ∧ (∀ e ∈ (delete_node s i).edges, e.source ≠ i ∧ e.target ≠ i)
      ∧ (∀ n ∈ s.nodes, n.id ≠ i → n ∈ (delete_node s i).nodes)
      ∧ (∀ e ∈ s.edges, e.source ≠ i → e.target ≠ i → e ∈ (delete_node s i).edges)
      ∧ (i ∉ get_node_ids s → (∀ e ∈ s.edges, e.source ≠ i ∧ e.target ≠ i) →
          delete_node s i = s) := by
  intro s i
  refine ⟨?_, ?_, ?_, ?_, ?_⟩
  · intro n hn
    simp only [delete_node, List.mem_filter, bne_iff_ne, ne_eq] at hn
    exact hn.2
  · intro e he
    simp only [delete_node, List.mem_filter, Bool.and_eq_true, bne_iff_ne, ne_eq] at he
    exact ⟨he.2.1, he.2.2⟩
  · intro n hn hne
    simp only [delete_node, List.mem_filter, bne_iff_ne, ne_eq]
    exact ⟨hn, hne⟩
  · intro e he h1 h2
    simp only [delete_node, List.mem_filter, Bool.and_eq_true, bne_iff_ne, ne_eq]
    exact ⟨he, h1, h2⟩
  · intro hnid hedges
    obtain ⟨ns, es⟩ := s
    simp only [delete_node, GraphState.mk.injEq]
    constructor
    · apply List.filter_eq_self.mpr
      intro n hn
      simp only [bne_iff_ne, ne_eq, decide_eq_true_eq]
      intro hcontra
      exact hnid (by simp only [get_node_ids]; exact List.mem_map.mpr ⟨n, hn, hcontra⟩)
    · apply List.filter_eq_self.mpr
      intro e he
      have := hedges e he
      simp only [Bool.and_eq_true, bne_iff_ne, ne_eq]
      exact ⟨this.1, this.2⟩

/-- Witness for C3 (amended) at concrete inputs: deleting `"A"` removes its
node and incident edge and keeps the rest; deleting an id that nothing
references is a no-op. -/
theorem C3_amended_delete_node_witness :
    (⟨"B", ""⟩ : Node) ∈ (delete_node ⟨[⟨"A", ""⟩, ⟨"B", ""⟩], [⟨"A", "B", "directed", ""⟩]⟩ "A").nodes
    ∧ delete_node ⟨[⟨"A", ""⟩, ⟨"B", ""⟩], [⟨"A", "B", "directed", ""⟩]⟩ "C"
        = ⟨[⟨"A", ""⟩, ⟨"B", ""⟩], [⟨"A", "B", "directed", ""⟩]⟩ :=
  ⟨(C3_amended_delete_node ⟨[⟨"A", ""⟩, ⟨"B", ""⟩], [⟨"A", "B", "directed", ""⟩]⟩ "A").2.2.1
      ⟨"B", ""⟩ (by decide) (by decide),
   (C3_amended_delete_node ⟨[⟨"A", ""⟩, ⟨"B", ""⟩], [⟨"A", "B", "directed", ""⟩]⟩ "C").2.2.2.2
      (by decide) (by decide)⟩

/-- C4 (counterexample): the round trip does not hold for every store
reachable through the public operations.  `replaceAll` ([] nodes, one edge
referencing `"A"`) is a public operation and validates nothing; on the
resulting store `serializeGraph` raises `KeyError` inside
`build_adjacency_list` (embedded as `none`) and produces no document to
parse, so the round trip fails there. -/
theorem C4_counterexample_import_breaks_roundtrip :
    ReachableOps (replace_all emptyState [] [⟨"A", "B", "directed", ""⟩])
    ∧ serializeGraph (replace_all emptyState [] [⟨"A", "B", "directed", ""⟩]) = none :=
  ⟨ReachableOps.replaceAll [] [⟨"A", "B", "directed", ""⟩] ReachableOps.empty, rfl⟩

/-- C4 (amended): round trip on consistent stores.  For every store whose
edges reference only existing node ids, serialization succeeds and parsing
its output returns raw arrays that read back as exactly the original node
and edge sequences (the derived `adjacency_list` member is never consulted
by the import path); and every store reachable through the interactive
editing operations is such a store.  Only `replaceAll` (JSON import) can
leave the consistent fragment, and there `serializeGraph` can raise instead
of producing a document. -/
theorem C4_amended_roundtrip :
    (∀ s : GraphState,
      (∀ e ∈ s.edges, e.source ∈ get_node_ids s ∧ e.target ∈ get_node_ids s) →
      ∃ doc, serializeGraph s = some doc
        ∧ ∃ rawNodes rawEdges,
            parseGraphDocument (.ok doc) = .ok (rawNodes, rawEdges)
            ∧ decodeNodes rawNodes = some s.nodes
            ∧ decodeEdges rawEdges = some s.edges)
    ∧ (∀ s : GraphState, ReachableA s →
        ∀ e ∈ s.edges, e.source ∈ get_node_ids s ∧ e.target ∈ get_node_ids s) := by
  constructor
  · intro s hwf
    exact ⟨_, serializeGraph_of_consistent hwf,
      .arr (s.nodes.map nodeToJson), .arr (s.edges.map edgeToJson),
      rfl, decodeNodes_encode _, decodeEdges_encode _⟩
  · intro s h
    exact reachable_edges_wf h

/-- Witness for C4 (amended): the round trip at a concrete consistent store
with two nodes and one edge, and edge consistency at a concrete
editing-reachable store. -/
theorem C4_amended_roundtrip_witness :
    (∃ doc, serializeGraph ⟨[⟨"A", ""⟩, ⟨"B", ""⟩], [⟨"A", "B", "directed", "go"⟩]⟩
          = some doc
      ∧ ∃ rawNodes rawEdges,
          parseGraphDocument (.ok doc) = .ok (rawNodes, rawEdges)
          ∧ decodeNodes rawNodes = some [⟨"A", ""⟩, ⟨"B", ""⟩]
          ∧ decodeEdges rawEdges = some [⟨"A", "B", "directed", "go"⟩])
    ∧ (∀ e ∈ (add_node emptyState).edges,
        e.source ∈ get_node_ids (add_node emptyState)
        ∧ e.target ∈ get_node_ids (add_node emptyState)) :=
  ⟨C4_amended_roundtrip.1 ⟨[⟨"A", ""⟩, ⟨"B", ""⟩], [⟨"A", "B", "directed", "go"⟩]⟩
      (by decide),
   C4_amended_roundtrip.2 (add_node emptyState) (ReachableA.addNode ReachableA.empty)⟩

/-- C5: adjacency direction rules.  For distinct ids `A`, `B`: a single
directed edge yields `A ↦ [B]`, `B ↦ []`; a single undirected or bidirected
edge yields `A ↦ [B]`, `B ↦ [A]`; two parallel directed edges keep both
occurrences in insertion order (`A ↦ [B, B]`). -/
theorem C5_adjacency_direction_rules :
    ∀ (A B la lb el : String), A ≠ B →
      build_adjacency_list ⟨[⟨A, la⟩, ⟨B, lb⟩], [⟨A, B, "directed", el⟩]⟩
          = some [(A, [B]), (B, [])]
      ∧ build_adjacency_list ⟨[⟨A, la⟩, ⟨B, lb⟩], [⟨A, B, "undirected", el⟩]⟩
          = some [(A, [B]), (B, [A])]
      ∧ build_adjacency_list ⟨[⟨A, la⟩, ⟨B, lb⟩], [⟨A, B, "bidirected", el⟩]⟩
          = some [(A, [B]), (B, [A])]
      ∧ build_adjacency_list ⟨[⟨A, la⟩, ⟨B, lb⟩],
            [⟨A, B, "directed", el⟩, ⟨A, B, "directed", el⟩]⟩
          = some [(A, [B, B]), (B, [])] := by
  intro A B la lb el h
  have hAB : (A == B) = false := by simp [h]
  refine ⟨?_, ?_, ?_, ?_⟩ <;>
    simp [build_adjacency_list, initAdj_pair la lb h, applyEdge, dictAppendAt,
      List.foldlM, hAB]

/-- Witness for C5 at concrete ids. -/
theorem C5_adjacency_direction_rules_witness :
    build_adjacency_list ⟨[⟨"A", ""⟩, ⟨"B", ""⟩], [⟨"A", "B", "directed", "go"⟩]⟩
        = some [("A", ["B"]), ("B", [])]
    ∧ build_adjacency_list ⟨[⟨"A", ""⟩, ⟨"B", ""⟩], [⟨"A", "B", "undirected", "go"⟩]⟩
        = some [("A", ["B"]), ("B", ["A"])]
    ∧ build_adjacency_list ⟨[⟨"A", ""⟩, ⟨"B", ""⟩], [⟨"A", "B", "bidirected", "go"⟩]⟩
        = some [("A", ["B"]), ("B", ["A"])]
    ∧ build_adjacency_list ⟨[⟨"A", ""⟩, ⟨"B", ""⟩],
          [⟨"A", "B", "directed", "go"⟩, ⟨"A", "B", "directed", "go"⟩]⟩
        = some [("A", ["B", "B"]), ("B", [])] :=
  C5_adjacency_direction_rules "A" "B" "" "" "go" (by decide)

/-- C6: the variant-A Add-edge handler rejects a self-loop — it signals the
warning and leaves the store untouched — and for distinct endpoints it
appends the edge without a warning. -/
theorem C6_self_loop_rejected :
    ∀ (s : GraphState) (src dst d l : String),
      (src = dst → add_edge s src dst d l = (s, true))
      ∧ (src ≠ dst →
          add_edge s src dst d l
            = ({ s with edges := s.edges ++ [⟨src, dst, d, l⟩] }, false)) := by
  intro s src dst d l
  constructor
  · intro h
    simp [add_edge, h]
  · intro h
    simp [add_edge, h]

/-- Witness for C6: a rejected self-loop and an accepted ordinary edge. -/
theorem C6_self_loop_rejected_witness :
    add_edge ⟨[⟨"A", ""⟩], []⟩ "A" "A" "directed" "" = (⟨[⟨"A", ""⟩], []⟩, true)
    ∧ add_edge ⟨[⟨"A", ""⟩], []⟩ "A" "B" "directed" ""
        = (⟨[⟨"A", ""⟩], [⟨"A", "B", "directed", ""⟩]⟩, false) :=
  ⟨(C6_self_loop_rejected ⟨[⟨"A", ""⟩], []⟩ "A" "A" "directed" "").1 rfl,
   (C6_self_loop_rejected ⟨[⟨"A", ""⟩], []⟩ "A" "B" "directed" "").2 (by decide)⟩

/-- C7 (counterexample): a syntactically valid non-object document (here the
JSON text `[]`) does not get the missing-keys default: `data.get` raises
`AttributeError`, the same `except` arm reports it as a parse failure, and
the store keeps its previous content. -/
theorem C7_counterexample_valid_nonobject :
    (jsonUploadHandler ⟨.arr [], .arr []⟩ (.ok (.arr []))).2
      = some "Could not parse JSON: AttributeError" := rfl

/-- C7 (amended): on a JSON syntax error the handler reports a parse error
carrying the underlying message and leaves the store unchanged; on a valid
top-level object, missing `nodes`/`edges` keys default to empty arrays with
no error, and whatever values the keys hold are stored unvalidated; on a
valid non-object top level the handler errors (store unchanged) instead of
defaulting. -/
theorem C7_amended_parse_behavior :
    (∀ (s : RawStore) (m : String),
        jsonUploadHandler s (.syntaxError m)
          = (s, some ("Could not parse JSON: " ++ m)))
    ∧ (∀ (s : RawStore) (kvs : List (String × Json)),
        jsonLookup kvs "nodes" = none → jsonLookup kvs "edges" = none →
        jsonUploadHandler s (.ok (.obj kvs)) = (⟨.arr [], .arr []⟩, none))
    ∧ (∀ (s : RawStore) (kvs : List (String × Json)) (nv ev : Json),
        jsonLookup kvs "nodes" = some nv → jsonLookup kvs "edges" = some ev →
        jsonUploadHandler s (.ok (.obj kvs)) = (⟨nv, ev⟩, none))
    ∧ (∀ (s : RawStore) (j : Json), (∀ kvs, j ≠ .obj kvs) →
        ∃ m, jsonUploadHandler s (.ok j) = (s, some m)) := by
  refine ⟨fun s m => rfl, ?_, ?_, ?_⟩
  · intro s kvs h1 h2
    simp [jsonUploadHandler, parseGraphDocument, h1, h2]
  · intro s kvs nv ev h1 h2
    simp [jsonUploadHandler, parseGraphDocument, h1, h2]
  · intro s j hne
    cases j with
    | obj kvs => exact absurd rfl (hne kvs)
    | null => exact ⟨_, rfl⟩
    | bool b => exact ⟨_, rfl⟩
    | num n => exact ⟨_, rfl⟩
    | str t => exact ⟨_, rfl⟩
    | arr l => exact ⟨_, rfl⟩

/-- Witness for C7 (amended) at concrete documents. -/
theorem C7_amended_parse_behavior_witness :
    jsonUploadHandler ⟨.arr [], .arr []⟩ (.syntaxError "Expecting value")
      = (⟨.arr [], .arr []⟩, some "Could not parse JSON: Expecting value")
    ∧ jsonUploadHandler ⟨.str "x", .str "y"⟩ (.ok (.obj []))
      = (⟨.arr [], .arr []⟩, none)
    ∧ jsonUploadHandler ⟨.str "x", .str "y"⟩
        (.ok (.obj [("nodes", .num 3), ("edges", .bool true)]))
      = (⟨.num 3, .bool true⟩, none)
    ∧ ∃ m, jsonUploadHandler ⟨.str "x", .str "y"⟩ (.ok .null) = (⟨.str "x", .str "y"⟩, some m) :=
  ⟨C7_amended_parse_behavior.1 ⟨.arr [], .arr []⟩ "Expecting value",
   C7_amended_parse_behavior.2.1 ⟨.str "x", .str "y"⟩ [] rfl rfl,
   C7_amended_parse_behavior.2.2.1 ⟨.str "x", .str "y"⟩ _ (.num 3) (.bool true) rfl rfl,
   C7_amended_parse_behavior.2.2.2 ⟨.str "x", .str "y"⟩ .null
     (fun _ h => Json.noConfusion h)⟩

/-- C8: the spec's concrete scenario.  From the empty store: `addNode` twice
allocates `N1`, `N2`; `addEdge("N1","N2","directed","go")` is accepted; the
serialized document is exactly the stated nodes, edges and adjacency list. -/
theorem C8_scenario :
    (add_edge (add_node (add_node emptyState)) "N1" "N2" "directed" "go").2 = false
    ∧ (add_edge (add_node (add_node emptyState)) "N1" "N2" "directed" "go").1
        = ⟨[⟨"N1", ""⟩, ⟨"N2", ""⟩], [⟨"N1", "N2", "directed", "go"⟩]⟩
    ∧ serializeGraph (add_edge (add_node (add_node emptyState)) "N1" "N2" "directed" "go").1
        = some (.obj [("nodes", .arr [.obj [("id", .str "N1"), ("label", .str "")],
                                      .obj [("id", .str "N2"), ("label", .str "")]]),
                      ("edges", .arr [.obj [("source", .str "N1"), ("target", .str "N2"),
                                            ("direction", .str "directed"),
                                            ("label", .str "go")]]),
                      ("adjacency_list", .obj [("N1", .arr [.str "N2"]),
                                               ("N2", .arr [])])]) :=
  ⟨rfl, rfl, rfl⟩

theorem find?_append_fresh {ns : List Node} {i lab : String}
    (h : (ns.filter fun n => n.id == i).isEmpty = true) :
    (ns ++ [(⟨i, lab⟩ : Node)]).find? (fun n => n.id == i) = some ⟨i, lab⟩ := by
  induction ns with
  | nil => simp [List.find?]
  | cons n ns ih =>
    have hn : (n.id == i) = false := by
      by_contra hc
      have : (n.id == i) = true := by
        cases hcase : n.id == i
        · exact absurd hcase hc
        · rfl
      simp [List.filter_cons, this] at h
    rw [List.cons_append, List.find?_cons_of_neg _ (by simp [hn])]
    apply ih
    simpa [List.filter_cons, hn] using h

theorem find?_updateFirstLabel {ns : List Node} {i lab : String}
    (h : (ns.filter fun n => n.id == i).isEmpty = false) :
    (Viz.updateFirstLabel ns i lab).find? (fun n => n.id == i) = some ⟨i, lab⟩ := by
  induction ns with
  | nil => simp at h
  | cons n ns ih =>
    by_cases hn : (n.id == i) = true
    · have hid : n.id = i := by simpa using hn
      rw [Viz.updateFirstLabel, if_pos hn]
      rw [List.find?_cons_of_pos _ (by simpa using hn)]
      simp [hid]
    · have hn' : (n.id == i) = false := by
        cases hcase : n.id == i
        · rfl
        · exact absurd hcase hn
      rw [Viz.updateFirstLabel, if_neg (by simp [hn'])]
      rw [List.find?_cons_of_neg _ (by simp [hn'])]
      apply ih
      simpa [List.filter_cons, hn'] using h

/-- C9: labels default to the id.  In variant B, after an add-or-update with
an empty supplied label, the affected node (the first one with that id) has
stored label equal to its id; in variant A, a node whose stored label is
empty is rendered with its id as the display label. -/
theorem C9_label_defaults_to_id :
    (∀ (s : GraphState) (i : String), Viz.isBlank i = false →
        (Viz.addUpdateNode s i "").1.nodes.find? (fun n => n.id == i)
          = some ⟨i, i⟩)
    ∧ (∀ n : Node, n.label = "" → graphviz_node_label n = n.id) := by
  constructor
  · intro s i hi
    rw [Viz.addUpdateNode]
    rw [if_neg (by simp [hi])]
    simp only [if_pos rfl]
    by_cases hemp : (s.nodes.filter fun n => n.id == i).isEmpty = true
    · rw [if_pos hemp]
      exact find?_append_fresh hemp
    · rw [if_neg hemp]
      exact find?_updateFirstLabel (by
        cases hcase : (s.nodes.filter fun n => n.id == i).isEmpty
        · rfl
        · exact absurd hcase hemp)
  · intro n h
    simp [graphviz_node_label, h]

/-- Witness for C9: an update of an existing node, a fresh add, and the
variant-A display label, all with empty supplied labels. -/
theorem C9_label_defaults_to_id_witness :
    (Viz.addUpdateNode ⟨[⟨"A", "old"⟩], []⟩ "A" "").1.nodes.find? (fun n => n.id == "A")
        = some ⟨"A", "A"⟩
    ∧ (Viz.addUpdateNode ⟨[⟨"A", "old"⟩], []⟩ "B" "").1.nodes.find? (fun n => n.id == "B")
        = some ⟨"B", "B"⟩
    ∧ graphviz_node_label ⟨"C", ""⟩ = "C" :=
  ⟨C9_label_defaults_to_id.1 ⟨[⟨"A", "old"⟩], []⟩ "A" (by decide),
   C9_label_defaults_to_id.1 ⟨[⟨"A", "old"⟩], []⟩ "B" (by decide),
   C9_label_defaults_to_id.2 ⟨"C", ""⟩ rfl⟩

/-- C10: on every store whose edges reference only existing node ids, the
adjacency dict of either variant is defined and its key set is exactly the
set of node ids — every node, isolated ones included, has an entry and no
other key occurs — with keys in node insertion order when ids are distinct. -/
theorem C10_adjacency_keys :
    ∀ s : GraphState,
      (∀ e ∈ s.edges, e.source ∈ get_node_ids s ∧ e.target ∈ get_node_ids s) →
      (∃ adj, build_adjacency_list s = some adj
        ∧ (∀ a, a ∈ dictKeys adj ↔ a ∈ get_node_ids s)
        ∧ ((get_node_ids s).Nodup → dictKeys adj = get_node_ids s))
      ∧ (∃ adj, Viz.build_adjacency_list s = some adj
        ∧ (∀ a, a ∈ dictKeys adj ↔ a ∈ get_node_ids s)
        ∧ ((get_node_ids s).Nodup → dictKeys adj = get_node_ids s)) := by
  intro s h
  simp only [get_node_ids] at h ⊢
  constructor
  · obtain ⟨d, hd, hk⟩ := foldlM_applyEdge_some s.edges (initAdj s.nodes) (fun e he =>
      ⟨mem_dictKeys_initAdj.mpr (h e he).1, mem_dictKeys_initAdj.mpr (h e he).2⟩)
    refine ⟨d, hd, ?_, ?_⟩
    · intro a
      rw [hk]
      exact mem_dictKeys_initAdj
    · intro hnodup
      rw [hk]
      exact dictKeys_initAdj_of_nodup hnodup
  · obtain ⟨d, hd, hk⟩ := foldlM_vizStep_some s.edges (initAdj s.nodes) (fun e he =>
      mem_dictKeys_initAdj.mpr (h e he).1)
    refine ⟨d, hd, ?_, ?_⟩
    · intro a
      rw [hk]
      exact mem_dictKeys_initAdj
    · intro hnodup
      rw [hk]
      exact dictKeys_initAdj_of_nodup hnodup

/-- Witness for C10 at a concrete store with an isolated node `"C"`. -/
theorem C10_adjacency_keys_witness :
    (∃ adj, build_adjacency_list
          ⟨[⟨"A", ""⟩, ⟨"B", ""⟩, ⟨"C", ""⟩], [⟨"A", "B", "directed", ""⟩]⟩ = some adj
      ∧ (∀ a, a ∈ dictKeys adj
            ↔ a ∈ get_node_ids ⟨[⟨"A", ""⟩, ⟨"B", ""⟩, ⟨"C", ""⟩], [⟨"A", "B", "directed", ""⟩]⟩)
      ∧ ((get_node_ids ⟨[⟨"A", ""⟩, ⟨"B", ""⟩, ⟨"C", ""⟩], [⟨"A", "B", "directed", ""⟩]⟩).Nodup →
          dictKeys adj
            = get_node_ids ⟨[⟨"A", ""⟩, ⟨"B", ""⟩, ⟨"C", ""⟩], [⟨"A", "B", "directed", ""⟩]⟩))
    ∧ (∃ adj, Viz.build_adjacency_list
          ⟨[⟨"A", ""⟩, ⟨"B", ""⟩, ⟨"C", ""⟩], [⟨"A", "B", "directed", ""⟩]⟩ = some adj
      ∧ (∀ a, a ∈ dictKeys adj
            ↔ a ∈ get_node_ids ⟨[⟨"A", ""⟩, ⟨"B", ""⟩, ⟨"C", ""⟩], [⟨"A", "B", "directed", ""⟩]⟩)
      ∧ ((get_node_ids ⟨[⟨"A", ""⟩, ⟨"B", ""⟩, ⟨"C", ""⟩], [⟨"A", "B", "directed", ""⟩]⟩).Nodup →
          dictKeys adj
            = get_node_ids ⟨[⟨"A", ""⟩, ⟨"B", ""⟩, ⟨"C", ""⟩], [⟨"A", "B", "directed", ""⟩]⟩)) :=
  C10_adjacency_keys ⟨[⟨"A", ""⟩, ⟨"B", ""⟩, ⟨"C", ""⟩], [⟨"A", "B", "directed", ""⟩]⟩
    (by decide)
